import Mathlib

/-!
# Verification of the perfetto protovm slab allocator

Shallow embedding of `src/protovm/slab_allocator.h` and
`src/base/intrusive_list.cc` (perfetto), together with proofs and refutations
of the specified properties.

Modelling conventions:

* Machine integers (`size_t`, `uintptr_t`) are modelled as `Nat`. For the
  quantities that occur in the verified configurations no 64-bit wrap-around
  occurs; where an operation could underflow (`--size_` on `size_t`), the
  theorems carry the allocation-contract hypothesis (a live element exists)
  under which the `Nat` model and the machine behaviour coincide.
* Struct layout follows the LP64 Itanium C++ ABI used by the code's targets:
  pointers are 8 bytes; a union's size is its largest member size rounded up
  to the union's alignment; a struct's members are laid out in declaration
  order at their natural alignment and the struct size is rounded up to the
  struct alignment.
* `base::GetSysPageSize()` (from `perfetto/ext/base/utils.h`, not part of the
  sources under verification) is modelled as 4096, the reference design's
  page size; the code independently hard-codes the 4096-byte block
  granularity as `internal::k4KiloBytes`.
* `PERFETTO_CHECK` / `PERFETTO_DCHECK` (from `perfetto/base/logging.h`, not
  part of the sources under verification) are modelled from the spec as
  fail-fast assertions that terminate the process; termination is encoded as
  the `Except.error Fatal.fatal` outcome.
* `base::FlatHashMap` is modelled from the spec as a finite partial map,
  encoded as a function `Nat → Option Nat`.
* The two intrusive lists of the allocator are modelled by the sequence of
  slab base addresses they thread, front first: `PushFront` is `List.cons`,
  `Front` is the head, `PopFront`/`Erase` remove elements, `Size` is the
  length. The pointer-level intrusive-list code of `intrusive_list.cc` is
  modelled separately (`ListBase`) for the claim about `PopFront`.
-/

namespace SlabAlloc

/-- Constant `internal::k4KiloBytes = 4 * 1024`. -/
def k4KB : Nat := 4 * 1024

/-- Page size `base::GetSysPageSize()`, modelled as the reference design's 4096. -/
def pageSize : Nat := 4096

/-- Function `RoundUpToSysPageSize(req_size) = (req_size + page_size - 1) & ~(page_size - 1)`.
For a power-of-two page size this equals clearing the low bits, i.e.
subtracting the remainder mod `pageSize`. -/
def roundUpToSysPageSize (reqSize : Nat) : Nat :=
  (reqSize + pageSize - 1) - (reqSize + pageSize - 1) % pageSize

/-- Round `n` up to the next multiple of the alignment `a` (C++ layout rule). -/
def alignUp (n a : Nat) : Nat := (n + a - 1) / a * a

/-- Size `sizeof(void*)` on LP64. -/
def sizeofPtr : Nat := 8

/-- Alignment of `Slab<…>::Slot`, a union of a `Slot*` and
`alignas(ElementAlign) unsigned char element[ElementSize]`:
the largest member alignment. -/
def slotAlign (elementAlign : Nat) : Nat := max sizeofPtr elementAlign

/-- Size `sizeof(Slab<…>::Slot)`: the largest member size (`max 8 ElementSize`)
rounded up to the union's alignment. -/
def slotSize (elementSize elementAlign : Nat) : Nat :=
  alignUp (max sizeofPtr elementSize) (slotAlign elementAlign)

/-- Raw size of the Slab header fields that precede the `slots_` array:
`Slot* next_free_slot_` (8) + `std::size_t size_` (8) +
`base::IntrusiveListNode intrusive_list_node_` (two pointers, 16). -/
def slabHeaderRaw : Nat := 8 + 8 + 16

/-- Offset of `slots_` inside the Slab: the header rounded up to the slot
alignment. -/
def slotsOffset (elementAlign : Nat) : Nat := alignUp slabHeaderRaw (slotAlign elementAlign)

/-- Size `sizeof(Slot[capacity])`. -/
def sizeofSlotArray (elementSize elementAlign capacity : Nat) : Nat :=
  capacity * slotSize elementSize elementAlign

/-- Size `sizeof(Slab<ElementSize, ElementAlign, capacity>)`: header, then the
slot array, rounded up to the struct alignment (which equals the slot
alignment, every other member being 8-aligned). -/
def sizeofSlab (elementSize elementAlign capacity : Nat) : Nat :=
  alignUp (slotsOffset elementAlign + sizeofSlotArray elementSize elementAlign capacity)
    (slotAlign elementAlign)

/-- Constant `SlabAllocator::SlabOverhead = sizeof(Slab<E,A,1>) - (sizeof(Slab<E,A,2>) - sizeof(Slab<E,A,1>))`. -/
def SlabOverhead (elementSize elementAlign : Nat) : Nat :=
  sizeofSlab elementSize elementAlign 1 -
    (sizeofSlab elementSize elementAlign 2 - sizeofSlab elementSize elementAlign 1)

/-- Constant `SlabAllocator::MemoryAvailableForElementsInSlab = Blocks4KBPerSlab * k4KiloBytes - SlabOverhead`. -/
def MemoryAvailableForElementsInSlab (elementSize elementAlign blocks4KBPerSlab : Nat) : Nat :=
  blocks4KBPerSlab * k4KB - SlabOverhead elementSize elementAlign

/-- Value of `sizeof(ElementSize)` as it appears in the code: `ElementSize` is a
`size_t` *template parameter*, so `sizeof(ElementSize)` is the size of the
type `size_t` itself — 8 on LP64 — irrespective of the parameter's value. -/
def sizeofSizeT : Nat := 8

/-- The code's `static_assert(sizeof(ElementSize) <= MemoryAvailableForElementsInSlab, …)`. -/
def staticAssertPasses (elementSize elementAlign blocks4KBPerSlab : Nat) : Bool :=
  sizeofSizeT ≤ MemoryAvailableForElementsInSlab elementSize elementAlign blocks4KBPerSlab

/-- Capacity `SlabAllocator::SlabCapacity = MemoryAvailableForElementsInSlab / sizeof(ElementSize)`,
exactly as the code computes it (divisor `sizeof(ElementSize) = sizeof(size_t) = 8`). -/
def SlabCapacityCode (elementSize elementAlign blocks4KBPerSlab : Nat) : Nat :=
  MemoryAvailableForElementsInSlab elementSize elementAlign blocks4KBPerSlab / sizeofSizeT

/-- The capacity formula in the words of the spec (claim C1):
`Capacity = (pages_per_slab * page_size - overhead) / slot_size`, the divisor
being the actual slot size — the element size rounded up for alignment, i.e.
the size of the union of free-list link and element bytes. Stated for
comparison with `SlabCapacityCode`. -/
def SlabCapacityClaim (elementSize elementAlign blocks4KBPerSlab : Nat) : Nat :=
  MemoryAvailableForElementsInSlab elementSize elementAlign blocks4KBPerSlab /
    slotSize elementSize elementAlign

end SlabAlloc


namespace SlabAlloc

/-- Outcome of a failed `PERFETTO_CHECK`/`PERFETTO_DCHECK`.

Modelled from the spec: the macros come from `perfetto/base/logging.h`, which
is not among the sources under verification; the spec describes them as
fail-fast assertions that terminate the process rather than continue or
report a recoverable error. -/
inductive Fatal where
  | fatal
deriving DecidableEq, Repr

/-- Template configuration of one `Slab<ElementSize, ElementAlign, SlabCapacity>`
instantiation (the allocator instantiates `cap := SlabCapacityCode es ea blocks`). -/
structure Cfg where
  es : Nat
  ea : Nat
  cap : Nat
deriving DecidableEq, Repr

/-- The slab configuration `SlabAllocator<es, ea, blocks>` instantiates:
`Slab<ElementSize, ElementAlign, SlabCapacity>`. -/
def allocCfg (es ea blocks : Nat) : Cfg :=
  ⟨es, ea, SlabCapacityCode es ea blocks⟩

/-- Address of `&slots_[i]` for a Slab placed at `base`. -/
def slotAddr (cfg : Cfg) (base i : Nat) : Nat :=
  base + slotsOffset cfg.ea + i * slotSize cfg.es cfg.ea

/-- Index of the slot whose address is `p` in a Slab placed at `base`
(pointer-to-index arithmetic). -/
def slotIndex (cfg : Cfg) (base p : Nat) : Nat :=
  (p - base - slotsOffset cfg.ea) / slotSize cfg.es cfg.ea

/-- Predicate: `p` is an address strictly inside the `slots_` array of a Slab at `base`. -/
def InSlotRange (cfg : Cfg) (base p : Nat) : Prop :=
  base + slotsOffset cfg.ea ≤ p ∧
    p < base + slotsOffset cfg.ea + sizeofSlotArray cfg.es cfg.ea cfg.cap

instance (cfg : Cfg) (base p : Nat) : Decidable (InSlotRange cfg base p) :=
  inferInstanceAs (Decidable (_ ∧ _))

/-- Mutable state of one `Slab` object. A `Slab` in C++ has no stored base
address — the object's own address (`this`) plays that role, so the slab
operations below take the object's address `base` explicitly.

* `nextFree` — the `next_free_slot_` pointer (`none` = `nullptr`);
* `slotLink` — for each slot index, the `Slot::next` pointer currently stored
  in that slot's bytes (meaningful only while the slot sits on the free
  list);
* `size` — the `size_` live-element count;
* `node` — the embedded `intrusive_list_node_` (`prev`, `next`); the
  allocator model tracks list structure separately, so this field only
  matters for the move-constructor claim. -/
structure SlabMem where
  nextFree : Option Nat
  slotLink : Nat → Option Nat
  size : Nat
  node : Option Nat × Option Nat

namespace SlabMem

/-- Modelled from the spec (`intrusive_list.h` is not among the sources):
a default-initialized `IntrusiveListNode` holds null back/forward references. -/
def defaultNode : Option Nat × Option Nat := (none, none)

/-- The `Slab()` constructor, run on the object at address `base`:
`next_free_slot_ = &slots_[0]`; slot `i` links to slot `i+1` for
`i + 1 < SlabCapacity`; the last slot's link is null. (The constructor
writes no other slot links; indices `≥ cap` carry the untouched default.) -/
def init (cfg : Cfg) (base : Nat) : SlabMem where
  nextFree := some (slotAddr cfg base 0)
  slotLink := fun i => if i + 1 < cfg.cap then some (slotAddr cfg base (i + 1)) else none
  size := 0
  node := defaultNode

/-- The `Slab(Slab&&)` move constructor:
`slots_{std::move(other.slots_)}` copies the slot bytes (so the stored links
keep their old address values), `next_free_slot_{other.next_free_slot_}`
copies the pointer, `size_{other.size_}` copies the count, and
`intrusive_list_node_` is absent from the initializer list, hence
default-initialized. The address of the newly constructed object is
immaterial to the resulting field values. -/
def moveFrom (other : SlabMem) : SlabMem where
  nextFree := other.nextFree
  slotLink := other.slotLink
  size := other.size
  node := defaultNode

/-- Operation `Slab::Allocate` on the object at `base`: pop the free-list head, advance
`next_free_slot_` to the popped slot's stored link (`next_free_slot_->next`),
increment `size_`, return the slot.
`PERFETTO_DCHECK(next_free_slot_)`: a null head is the fatal/undefined case,
modelled as `none`. -/
def allocate (cfg : Cfg) (base : Nat) (s : SlabMem) : Option (Nat × SlabMem) :=
  match s.nextFree with
  | none => none
  | some p =>
    some (p,
      { s with
        nextFree := s.slotLink (slotIndex cfg base p)
        size := s.size + 1 })

/-- Operation `Slab::Free(p)` on the object at `base`: store the current free-list head
into `p`'s slot (`slot->next = next_free_slot_`), make `p` the new head,
decrement `size_`. (`size_` is a `size_t`; under the free contract
`size_ ≥ 1`, so the `Nat` subtraction agrees with the machine.) -/
def free (cfg : Cfg) (base : Nat) (s : SlabMem) (p : Nat) : SlabMem :=
  { s with
    slotLink := fun j => if j = slotIndex cfg base p then s.nextFree else s.slotLink j
    nextFree := some p
    size := s.size - 1 }

/-- Predicate `Slab::IsFull`: `size_ == SlabCapacity`. -/
def isFull (cfg : Cfg) (s : SlabMem) : Bool := s.size = cfg.cap

/-- Predicate `Slab::IsEmpty`: `size_ == 0`. -/
def isEmpty (s : SlabMem) : Bool := s.size = 0

/-- Accessor `Slab::GetEndAddress` for the object at `base`: `this + sizeof(Slab)`.
(`GetBeginAddress` is `base` itself.) -/
def endAddress (cfg : Cfg) (base : Nat) : Nat :=
  base + sizeofSlab cfg.es cfg.ea cfg.cap

end SlabMem

/-- The size `Slab::New` passes to `mmap`: `RoundUpToSysPageSize(sizeof(Slab))`. -/
def slabMappedSize (cfg : Cfg) : Nat :=
  roundUpToSysPageSize (sizeofSlab cfg.es cfg.ea cfg.cap)

/-- The size `Slab::Delete` passes to `munmap`:
`RoundUpToSysPageSize(sizeof(Slot[SlabCapacity]))`. -/
def slabUnmappedSize (cfg : Cfg) : Nat :=
  roundUpToSysPageSize (sizeofSlotArray cfg.es cfg.ea cfg.cap)

end SlabAlloc

namespace SlabAlloc

/-- One `IntrusiveListNode`: `prev` and `next` pointers (`none` = null). -/
structure NodeM where
  prev : Option Nat
  next : Option Nat
deriving DecidableEq, Repr

/-- Pointer-level state of `internal::intrusive_list::Base` from
`src/base/intrusive_list.cc`: the `front_` pointer, the `size_` counter, and
the heap of nodes reachable by address. -/
structure ListBase where
  front : Option Nat
  size : Nat
  nodes : Nat → NodeM

/-- Operation `Base::PopFront`:
`PERFETTO_DCHECK(front_)` — popping an empty list is the fatal case;
otherwise `front_ = front_->next; if (front_) front_->prev = nullptr; --size_`. -/
def ListBase.popFront (l : ListBase) : Except Fatal ListBase :=
  match l.front with
  | none => .error .fatal
  | some f =>
    match (l.nodes f).next with
    | none => .ok { l with front := none, size := l.size - 1 }
    | some g =>
      .ok { l with
        front := some g
        nodes := fun a => if a = g then { l.nodes g with prev := none } else l.nodes a
        size := l.size - 1 }

/-- State of one `SlabAllocator` instance:

* `slabs` — the live `Slab` objects, keyed by their base (mapping) address;
  `none` means no live slab is mapped there (in particular after
  `Slab::Delete`);
* `nonFull` / `full` — the two intrusive lists `slabs_non_full_` /
  `slabs_full_`, as the front-first sequence of slab base addresses they
  thread;
* `blockMap` — `block_4KB_aligned_to_slab_`, the `FlatHashMap` from
  4KB-aligned block address to owning slab (represented by its base). -/
structure SAState where
  slabs : Nat → Option SlabMem
  nonFull : List Nat
  full : List Nat
  blockMap : Nat → Option Nat

namespace SAState

/-- A freshly constructed `SlabAllocator`: no slabs, both lists empty, empty
hash map. -/
def init : SAState where
  slabs := fun _ => none
  nonFull := []
  full := []
  blockMap := fun _ => none

/-- Mask `ptr & ~(k4KiloBytes - 1)`: the containing 4KB-aligned block address
(`FindSlabInHashMap`'s key computation). -/
def blockOf (p : Nat) : Nat := p - p % k4KB

/-- Loop `InsertHashMapEntries(slab)`: insert a mapping for every address
`p = begin, begin + 4KB, …` below the slab's end address. -/
def insertEntries (cfg : Cfg) (m : Nat → Option Nat) (base : Nat) : Nat → Option Nat :=
  fun a =>
    if base ≤ a ∧ a < base + sizeofSlab cfg.es cfg.ea cfg.cap ∧ (a - base) % k4KB = 0 then
      some base
    else m a

/-- Loop `EraseHashMapEntries(slab)`: erase the mapping for every address
`p = begin, begin + 4KB, …` below the slab's end address. -/
def eraseEntries (cfg : Cfg) (m : Nat → Option Nat) (base : Nat) : Nat → Option Nat :=
  fun a =>
    if base ≤ a ∧ a < base + sizeofSlab cfg.es cfg.ea cfg.cap ∧ (a - base) % k4KB = 0 then
      none
    else m a

/-- The second half of `SlabAllocator::Allocate`, entered with a non-empty
non-full list: take the front slab, call its `Allocate`
(`PERFETTO_CHECK(allocated)`), and move the slab to the full list when it
just became full (the `Erase` of the front node leaves the tail). -/
def allocateFromFront (cfg : Cfg) (st : SAState) : Except Fatal (Option Nat × SAState) :=
  match st.nonFull with
  | [] => .error .fatal
  | b :: rest =>
    match st.slabs b with
    | none => .error .fatal
    | some s =>
      match s.allocate cfg b with
      | none => .error .fatal
      | some (p, s') =>
        let st' := { st with slabs := fun b' => if b' = b then some s' else st.slabs b' }
        if s'.isFull cfg then
          .ok (some p, { st' with nonFull := rest, full := b :: st'.full })
        else
          .ok (some p, st')

/-- Operation `SlabAllocator::Allocate`. The OS mapping request made by `Slab::New` is
the oracle `os`: `none` means `mmap` returned `MAP_FAILED`, `some base` a
fresh mapping at `base`. `Slab::New` checks the returned region is
4KB-aligned (`PERFETTO_CHECK`), placement-constructs `Slab{}` there, and
`Allocate` pushes it to the non-full list and registers its blocks before
allocating from the front slab. -/
def allocate (cfg : Cfg) (os : Option Nat) (st : SAState) :
    Except Fatal (Option Nat × SAState) :=
  if st.nonFull.isEmpty then
    match os with
    | none => .ok (none, st)
    | some base =>
      if base % k4KB = 0 then
        let slab := SlabMem.init cfg base
        allocateFromFront cfg
          { st with
            slabs := fun b' => if b' = base then some slab else st.slabs b'
            nonFull := base :: st.nonFull
            blockMap := insertEntries cfg st.blockMap base }
      else .error .fatal
  else allocateFromFront cfg st

/-- Operation `SlabAllocator::Free(p)`:
look up the owning slab from `p`'s 4KB block (`PERFETTO_CHECK` on a miss);
if it is full, move it from the full list to the front of the non-full list;
call the slab's `Free`; and if the slab is now empty while the non-full list
holds more than one slab, erase its hash-map entries, erase it from the
non-full list and `Slab::Delete` it. -/
def free (cfg : Cfg) (p : Nat) (st : SAState) : Except Fatal SAState :=
  match st.blockMap (blockOf p) with
  | none => .error .fatal
  | some b =>
    match st.slabs b with
    | none => .error .fatal
    | some s =>
      let st1 :=
        if s.isFull cfg then
          { st with full := st.full.erase b, nonFull := b :: st.nonFull }
        else st
      let s' := s.free cfg b p
      let st2 := { st1 with slabs := fun b' => if b' = b then some s' else st1.slabs b' }
      if s'.isEmpty ∧ 1 < st2.nonFull.length then
        .ok { st2 with
          blockMap := eraseEntries cfg st2.blockMap b
          nonFull := st2.nonFull.erase b
          slabs := fun b' => if b' = b then none else st2.slabs b' }
      else
        .ok st2

end SAState

/-- Single-slab allocator state used to witness C5: one slab at 4096 holding
one live element (4128), free-list head 4136. -/
def c5slab : SlabMem :=
  ⟨some 4136, fun i => if i + 1 < 508 then some (4096 + 32 + (i + 1) * 8) else none,
   1, SlabMem.defaultNode⟩

/-- Allocator state owning `c5slab` as its sole, non-full slab. -/
def c5st : SAState :=
  ⟨fun b => if b = 4096 then some c5slab else none, [4096], [],
   fun a => if a = 4096 then some 4096 else none⟩

/-- Allocator invariant tying list membership to live counts: every slab in
the non-full list is live with `size < cap`; every slab in the full list is
live with `size = cap`; every live slab is in one of the lists; the lists
are duplicate-free and disjoint. -/
structure SAInv (cfg : Cfg) (st : SAState) : Prop where
  nonFull_live : ∀ b ∈ st.nonFull, ∃ s, st.slabs b = some s ∧ s.size < cfg.cap
  full_live : ∀ b ∈ st.full, ∃ s, st.slabs b = some s ∧ s.size = cfg.cap
  live_listed : ∀ b s, st.slabs b = some s → b ∈ st.nonFull ∨ b ∈ st.full
  nodup_nonFull : st.nonFull.Nodup
  nodup_full : st.full.Nodup
  lists_disjoint : ∀ b ∈ st.nonFull, b ∉ st.full

/-- One public operation respecting the allocation contract: an `Allocate`
whose OS oracle returns only fresh (unmapped) addresses, or a `Free` of a
pointer whose owning slab holds a live element. Fatal outcomes produce no
transition. -/
inductive Step (cfg : Cfg) : SAState → SAState → Prop
  | alloc (os : Option Nat) (r : Option Nat) (st st' : SAState)
      (hfresh : ∀ bn, os = some bn → st.slabs bn = none)
      (heq : SAState.allocate cfg os st = .ok (r, st')) : Step cfg st st'
  | free (p : Nat) (st st' : SAState)
      (hcontract : ∀ b s, st.blockMap (SAState.blockOf p) = some b →
        st.slabs b = some s → 1 ≤ s.size)
      (heq : SAState.free cfg p st = .ok st') : Step cfg st st'

/-- States reachable from a freshly constructed allocator by contract-respecting
`Allocate`/`Free` calls. -/
def Reachable (cfg : Cfg) (st : SAState) : Prop :=
  Relation.ReflTransGen (Step cfg) SAState.init st

/-- State reached from a fresh `8/8/1` allocator by one successful
`Allocate` with a slab mapped at 4096. -/
def c7st : SAState :=
  (((SAState.allocate (allocCfg 8 8 1) (some 4096) SAState.init).toOption.map Prod.snd).getD
    SAState.init)

/-- The slab owned by `c7st` at base 4096 (one live element). -/
def c7slab : SlabMem :=
  (c7st.slabs 4096).getD ⟨none, fun _ => none, 0, SlabMem.defaultNode⟩

end SlabAlloc

namespace SlabAlloc

/-- Auxiliary: rounding up to a positive alignment never shrinks a size. -/
lemma le_alignUp (n : Nat) {a : Nat} (ha : 0 < a) : n ≤ alignUp n a := by
  unfold alignUp
  have h1 : a * ((n + a - 1) / a) + (n + a - 1) % a = n + a - 1 :=
    Nat.div_add_mod (n + a - 1) a
  rw [Nat.mul_comm] at h1
  have h2 : (n + a - 1) % a < a := Nat.mod_lt _ ha
  generalize (n + a - 1) / a * a = t at h1 ⊢
  generalize (n + a - 1) % a = r at h1 h2
  omega

/-- Auxiliary: the slot alignment is positive. -/
lemma slotAlign_pos (ea : Nat) : 0 < slotAlign ea :=
  Nat.lt_of_lt_of_le (by decide) (Nat.le_max_left sizeofPtr ea)

/-- Auxiliary: the slot array (header offset included) lies inside
`sizeof(Slab)` bytes. -/
lemma slots_le_sizeofSlab (es ea cap : Nat) :
    slotsOffset ea + sizeofSlotArray es ea cap ≤ sizeofSlab es ea cap :=
  le_alignUp _ (slotAlign_pos ea)

/-- C1. The claim says `Capacity = (Blocks4KBPerSlab * 4096 - overhead) / slot_size`
with the actual slot size as divisor. The code instead divides by
`sizeof(ElementSize)`, the size of the `size_t` template parameter itself
(8 bytes), so for the configuration `ElementSize = 16`, `ElementAlign = 8`,
`Blocks4KBPerSlab = 1` — whose slot size is 16 — the code computes
508 = (4096 - 32) / 8 while the claimed formula gives 254 = (4096 - 32) / 16. -/
theorem capacity_formula_divisor_mismatch :
    SlabCapacityCode 16 8 1 = 508 ∧ SlabCapacityClaim 16 8 1 = 254 ∧
      SlabCapacityCode 16 8 1 ≠ SlabCapacityClaim 16 8 1 := by
  decide

/-- C2. The claim says `Slab::Delete` passes to `munmap` the same size
`Slab::New` passed to `mmap` (the page-rounded footprint of the whole Slab).
`New` rounds up `sizeof(Slab)` but `Delete` rounds up only
`sizeof(Slot[SlabCapacity])`, dropping the 32-byte header: for the allocator
configuration `ElementSize = 1024`, `ElementAlign = 8`,
`Blocks4KBPerSlab = 1` (capacity 508) `New` maps 524288 bytes while `Delete`
unmaps 520192 bytes, leaking one page per destroyed slab. -/
theorem delete_unmap_size_mismatch :
    (allocCfg 1024 8 1).cap = 508 ∧
      slabMappedSize (allocCfg 1024 8 1) = 524288 ∧
      slabUnmappedSize (allocCfg 1024 8 1) = 520192 ∧
      slabMappedSize (allocCfg 1024 8 1) ≠ slabUnmappedSize (allocCfg 1024 8 1) := by
  decide

/-- C3. The claim says configurations where even one slot cannot fit in the
page budget are rejected at compile/construction time. The code's
`static_assert` compares `sizeof(ElementSize)` — 8, the size of the `size_t`
parameter — against the available memory, so the configuration
`ElementSize = 4096`, `ElementAlign = 8`, `Blocks4KBPerSlab = 1`, whose
4096-byte slot exceeds the 4064 available bytes, passes the assertion and
yields capacity 508 instead of being rejected. -/
theorem static_assert_accepts_unfittable_slot :
    MemoryAvailableForElementsInSlab 4096 8 1 < slotSize 4096 8 ∧
      staticAssertPasses 4096 8 1 = true ∧
      1 ≤ SlabCapacityCode 4096 8 1 := by
  decide

/-- C8. Calling `PopFront` on an empty intrusive list (null `front_`) hits
the fail-fast check `PERFETTO_DCHECK(front_)` and terminates the process
(the `Fatal` outcome), instead of proceeding or returning a recoverable
error. -/
theorem popFront_empty_is_fatal (l : ListBase) (h : l.front = none) :
    l.popFront = .error .fatal := by
  unfold ListBase.popFront
  rw [h]

/-- Witness for C8: the empty list with zero nodes. -/
theorem popFront_empty_is_fatal_witness :
    (ListBase.front ⟨none, 0, fun _ => ⟨none, none⟩⟩ = none) ∧
      ListBase.popFront ⟨none, 0, fun _ => ⟨none, none⟩⟩ = .error .fatal :=
  ⟨rfl, popFront_empty_is_fatal ⟨none, 0, fun _ => ⟨none, none⟩⟩ rfl⟩

/-- C9. A freshly constructed Slab (capacity at least 1) has live count 0 and
its free list holds all slots in index order: the head is slot 0, slot `i`
links forward to slot `i+1` for every `i` with `i + 1 < Capacity`, and the
last slot terminates the chain with a null link. -/
theorem slab_init_free_list_in_index_order (cfg : Cfg) (base : Nat)
    (hcap : 1 ≤ cfg.cap) :
    (SlabMem.init cfg base).size = 0 ∧
      (SlabMem.init cfg base).nextFree = some (slotAddr cfg base 0) ∧
      (∀ i, i + 1 < cfg.cap →
        (SlabMem.init cfg base).slotLink i = some (slotAddr cfg base (i + 1))) ∧
      (SlabMem.init cfg base).slotLink (cfg.cap - 1) = none := by
  refine ⟨rfl, rfl, ?_, ?_⟩
  · intro i hi
    simp [SlabMem.init, hi]
  · have hlast : ¬(cfg.cap - 1 + 1 < cfg.cap) := by omega
    simp [SlabMem.init, hlast]

/-- Witness for C9: the allocator configuration `ElementSize = 8`,
`ElementAlign = 8`, `Blocks4KBPerSlab = 1` (capacity 508), a slab mapped at
4096: slots start at 4128 and link in index order. -/
theorem slab_init_free_list_in_index_order_witness :
    1 ≤ (allocCfg 8 8 1).cap ∧
      (SlabMem.init (allocCfg 8 8 1) 4096).size = 0 ∧
      (SlabMem.init (allocCfg 8 8 1) 4096).nextFree = some 4128 ∧
      (SlabMem.init (allocCfg 8 8 1) 4096).slotLink 0 = some 4136 ∧
      (SlabMem.init (allocCfg 8 8 1) 4096).slotLink ((allocCfg 8 8 1).cap - 1) = none := by
  have h := slab_init_free_list_in_index_order (allocCfg 8 8 1) 4096 (by decide)
  exact ⟨by decide, h.1, h.2.1, h.2.2.1 0 (by decide), h.2.2.2⟩

/-- C10. The Slab move constructor copies `next_free_slot_` and the slot
bytes verbatim and default-initializes the intrusive-list node: if the
moved-from slab (at `srcBase`) had its free-list head inside its own slot
array and the destination object (at `dstBase`) occupies a disjoint address
range, the moved-to slab's head — and every copied slot link — still points
into the moved-from slab's array and not into the moved-to slab's own slots,
violating the free-list locality invariant. -/
theorem slab_move_ctor_keeps_foreign_links (cfg : Cfg) (srcBase dstBase a : Nat)
    (other : SlabMem)
    (hhead : other.nextFree = some a)
    (hin : InSlotRange cfg srcBase a)
    (hdisj : dstBase + sizeofSlab cfg.es cfg.ea cfg.cap ≤ srcBase ∨
      srcBase + sizeofSlab cfg.es cfg.ea cfg.cap ≤ dstBase) :
    (SlabMem.moveFrom other).nextFree = some a ∧
      ¬ InSlotRange cfg dstBase a ∧
      (SlabMem.moveFrom other).slotLink = other.slotLink ∧
      (SlabMem.moveFrom other).node = SlabMem.defaultNode := by
  refine ⟨hhead, ?_, rfl, rfl⟩
  have hsrc := slots_le_sizeofSlab cfg.es cfg.ea cfg.cap
  rcases hin with ⟨hin1, hin2⟩
  rintro ⟨hd1, hd2⟩
  rcases hdisj with hdisj | hdisj <;> omega

/-- Witness for C10: a slab at 4096 (configuration `8/8/1`, capacity 508,
head pointing at its own slot 0, address 4128) moved to a fresh object at
40960: the copied head 4128 is not a slot address of the new object. -/
theorem slab_move_ctor_keeps_foreign_links_witness :
    (SlabMem.init (allocCfg 8 8 1) 4096).nextFree = some 4128 ∧
      InSlotRange (allocCfg 8 8 1) 4096 4128 ∧
      (4096 + sizeofSlab 8 8 508 ≤ 40960) ∧
      ((SlabMem.moveFrom (SlabMem.init (allocCfg 8 8 1) 4096)).nextFree = some 4128 ∧
        ¬ InSlotRange (allocCfg 8 8 1) 40960 4128 ∧
        (SlabMem.moveFrom (SlabMem.init (allocCfg 8 8 1) 4096)).slotLink =
          (SlabMem.init (allocCfg 8 8 1) 4096).slotLink ∧
        (SlabMem.moveFrom (SlabMem.init (allocCfg 8 8 1) 4096)).node = SlabMem.defaultNode) := by
  refine ⟨rfl, by decide, by decide, ?_⟩
  exact slab_move_ctor_keeps_foreign_links (allocCfg 8 8 1) 4096 40960 4128
    (SlabMem.init (allocCfg 8 8 1) 4096) rfl (by decide) (Or.inr (by decide))

/-- C6. When `Allocate` needs a new slab (the non-full list is empty) and the
OS mapping request fails, it returns null and the state — both lists and the
address index — is exactly the state before the call: no slab is pushed and
no index entries are inserted. -/
theorem allocate_mmap_failure_leaves_state_unchanged (cfg : Cfg) (st : SAState)
    (h : st.nonFull = []) :
    SAState.allocate cfg none st = .ok (none, st) := by
  unfold SAState.allocate
  rw [h]
  rfl

/-- Witness for C6: a fresh allocator whose OS mapping request fails. -/
theorem allocate_mmap_failure_leaves_state_unchanged_witness :
    (SAState.init.nonFull = []) ∧
      SAState.allocate (allocCfg 8 8 1) none SAState.init = .ok (none, SAState.init) :=
  ⟨rfl, allocate_mmap_failure_leaves_state_unchanged (allocCfg 8 8 1) SAState.init rfl⟩

end SlabAlloc

namespace SlabAlloc

/-- C4, counterexample to the claim as stated. Configuration `8/8/1`
(capacity 508 ≥ 2), allocator mapped one slab at 4096: allocate 4128 and
4136, free 4128 — the slab still holds the live slot 4136 (live count 1) —
and the immediately following `Allocate` returns exactly 4128 again, the
address just freed: with a LIFO free list the most-recently-freed slot is
the next one handed out, so `Free(p)` followed by `Allocate()` *does* return
the same address. -/
theorem free_then_allocate_same_address_cex :
    2 ≤ (allocCfg 8 8 1).cap ∧
      (do
        let r1 ← SAState.allocate (allocCfg 8 8 1) (some 4096) SAState.init
        let r2 ← SAState.allocate (allocCfg 8 8 1) none r1.2
        let s3 ← SAState.free (allocCfg 8 8 1) 4128 r2.2
        let r4 ← SAState.allocate (allocCfg 8 8 1) none s3
        pure (r1.1, r2.1, (s3.slabs 4096).map SlabMem.size, r4.1))
      = Except.ok (some 4128, some 4136, some 1, some 4128) :=
  ⟨by decide, rfl⟩

/-- C4, amended: for every allocated pointer `p` whose slab is full or at
the front of the non-full list, and which the thrash-avoidance rule does not
destroy, `Free(p)` followed immediately by `Allocate()` returns exactly the
same address `p` — the internal free list is LIFO, so the most-recently-freed
slot in a slab is the next one handed out by that slab's `Allocate`. -/
theorem free_then_allocate_returns_freed_address (cfg : Cfg) (st : SAState)
    (os : Option Nat) (p b : Nat) (s : SlabMem)
    (hlookup : st.blockMap (SAState.blockOf p) = some b)
    (hslab : st.slabs b = some s)
    (hlive : 1 ≤ s.size)
    (hfront : s.size = cfg.cap ∨ st.nonFull.head? = some b)
    (hstay : ¬(s.size = 1 ∧ 1 <
      (if s.size = cfg.cap then st.nonFull.length + 1 else st.nonFull.length))) :
    ∃ st', SAState.free cfg p st = .ok st' ∧
      ∃ st'', SAState.allocate cfg os st' = .ok (some p, st'') := by
  unfold SAState.free
  simp only [hlookup, hslab]
  by_cases hf : SlabMem.isFull cfg s = true
  · have hfq : s.size = cfg.cap := by simpa [SlabMem.isFull] using hf
    simp only [if_pos hf]
    have hcond : ¬((SlabMem.free cfg b s p).isEmpty = true ∧ 1 < (b :: st.nonFull).length) := by
      simp only [SlabMem.free, SlabMem.isEmpty, decide_eq_true_eq, List.length_cons]
      rw [if_pos hfq] at hstay
      rintro ⟨h1, h2⟩
      exact hstay ⟨by omega, h2⟩
    rw [if_neg hcond]
    refine ⟨_, rfl, ?_⟩
    unfold SAState.allocate
    simp only [List.isEmpty_cons, Bool.false_eq_true, if_false]
    unfold SAState.allocateFromFront
    simp only [SlabMem.allocate, SlabMem.free, if_pos rfl, if_true]
    split
    · exact ⟨_, rfl⟩
    · exact ⟨_, rfl⟩
  · have hfq : ¬(s.size = cfg.cap) := by simpa [SlabMem.isFull] using hf
    simp only [if_neg hf]
    have hhd : st.nonFull.head? = some b := hfront.resolve_left hfq
    obtain ⟨rest, hrest⟩ : ∃ rest, st.nonFull = b :: rest := by
      cases hnf : st.nonFull with
      | nil => rw [hnf] at hhd; cases hhd
      | cons x xs =>
        rw [hnf] at hhd
        simp only [List.head?] at hhd
        exact ⟨xs, by injection hhd with h; rw [h]⟩
    have hcond : ¬((SlabMem.free cfg b s p).isEmpty = true ∧ 1 < st.nonFull.length) := by
      simp only [SlabMem.free, SlabMem.isEmpty, decide_eq_true_eq]
      rw [if_neg hfq] at hstay
      rintro ⟨h1, h2⟩
      exact hstay ⟨by omega, h2⟩
    rw [if_neg hcond]
    refine ⟨_, rfl, ?_⟩
    unfold SAState.allocate
    rw [hrest]
    simp only [List.isEmpty_cons, Bool.false_eq_true, if_false]
    unfold SAState.allocateFromFront
    simp only [SlabMem.allocate, SlabMem.free, if_pos rfl, if_true]
    split
    · exact ⟨_, rfl⟩
    · exact ⟨_, rfl⟩

/-- Witness for the amended C4: one slab at 4096 with two live slots (4128
and 4136) and free-list head 4144; freeing 4128 and allocating again hands
back 4128. -/
theorem free_then_allocate_returns_freed_address_witness :
    ((⟨fun b => if b = 4096 then some
        ⟨some 4144,
         fun i => if i + 1 < 508 then some (4096 + 32 + (i + 1) * 8) else none,
         2, SlabMem.defaultNode⟩ else none,
      [4096], [],
      fun a => if a = 4096 then some 4096 else none⟩ : SAState).blockMap
        (SAState.blockOf 4128) = some 4096) ∧
    (∃ st', SAState.free (allocCfg 8 8 1) 4128
        ⟨fun b => if b = 4096 then some
          ⟨some 4144,
           fun i => if i + 1 < 508 then some (4096 + 32 + (i + 1) * 8) else none,
           2, SlabMem.defaultNode⟩ else none,
         [4096], [],
         fun a => if a = 4096 then some 4096 else none⟩ = .ok st' ∧
      ∃ st'', SAState.allocate (allocCfg 8 8 1) none st' = .ok (some 4128, st'')) := by
  refine ⟨rfl, ?_⟩
  exact free_then_allocate_returns_freed_address (allocCfg 8 8 1) _ none 4128 4096
    ⟨some 4144, fun i => if i + 1 < 508 then some (4096 + 32 + (i + 1) * 8) else none,
     2, SlabMem.defaultNode⟩
    rfl rfl (by decide) (Or.inr rfl) (by decide)

end SlabAlloc

namespace SlabAlloc

/-- C5. After every `SlabAllocator::Free` of a live pointer `p` owned by slab
`b`: writing `nfAfter` for the non-full list at the emptiness check (with `b`
moved to its front when it was full), if the slab is now completely empty
(`s.size = 1` before the free) and `nfAfter` holds more than one slab, then
every page-aligned address of the slab is removed from the address index, the
slab is erased from the non-full list, and it is destroyed; if instead it is
the sole non-full slab, it is retained — still live, still listed, index
untouched — and the next `Allocate` reuses it (it succeeds without any OS
mapping, returning the freed slot). -/
theorem free_empty_slab_destroy_or_retain (cfg : Cfg) (st : SAState)
    (p b : Nat) (s : SlabMem)
    (hlookup : st.blockMap (SAState.blockOf p) = some b)
    (hslab : st.slabs b = some s)
    (hmem : s.size = cfg.cap ∨ b ∈ st.nonFull) :
    ∃ st', SAState.free cfg p st = .ok st' ∧
      ((s.size = 1 ∧ 1 < (if s.size = cfg.cap then b :: st.nonFull else st.nonFull).length) →
        st'.slabs b = none ∧
        st'.nonFull = (if s.size = cfg.cap then b :: st.nonFull else st.nonFull).erase b ∧
        ∀ a, b ≤ a → a < b + sizeofSlab cfg.es cfg.ea cfg.cap → (a - b) % k4KB = 0 →
          st'.blockMap a = none) ∧
      ((s.size = 1 ∧ (if s.size = cfg.cap then b :: st.nonFull else st.nonFull).length = 1) →
        st'.slabs b = some (s.free cfg b p) ∧
        st'.nonFull = (if s.size = cfg.cap then b :: st.nonFull else st.nonFull) ∧
        st'.blockMap = st.blockMap ∧
        ∃ st'', SAState.allocate cfg none st' = .ok (some p, st'')) := by
  unfold SAState.free
  simp only [hlookup, hslab]
  by_cases hf : SlabMem.isFull cfg s = true
  · have hfq : s.size = cfg.cap := by simpa [SlabMem.isFull] using hf
    simp only [if_pos hf, if_pos hfq]
    by_cases hdc : (SlabMem.free cfg b s p).isEmpty = true ∧ 1 < (b :: st.nonFull).length
    · rw [if_pos hdc]
      refine ⟨_, rfl, ?_, ?_⟩
      · intro hde
        refine ⟨by simp, rfl, ?_⟩
        intro a ha1 ha2 ha3
        simp only [SAState.eraseEntries]
        rw [if_pos ⟨ha1, by omega, ha3⟩]
      · rintro ⟨h1, h2⟩
        exfalso
        rcases hdc with ⟨hd1, hd2⟩
        omega
    · rw [if_neg hdc]
      refine ⟨_, rfl, ?_, ?_⟩
      · rintro ⟨h1, h2⟩
        exfalso
        exact hdc ⟨by simp [SlabMem.free, SlabMem.isEmpty]; omega, by simpa using h2⟩
      · rintro ⟨h1, h2⟩
        have hnil : st.nonFull = [] := by
          simp only [List.length_cons] at h2
          exact List.length_eq_zero.mp (by omega)
        refine ⟨by simp, rfl, rfl, ?_⟩
        unfold SAState.allocate
        rw [hnil]
        simp only [List.isEmpty_cons, Bool.false_eq_true, if_false]
        unfold SAState.allocateFromFront
        simp only [SlabMem.allocate, SlabMem.free, if_pos rfl, if_true]
        split
        · exact ⟨_, rfl⟩
        · exact ⟨_, rfl⟩
  · have hfq : ¬(s.size = cfg.cap) := by simpa [SlabMem.isFull] using hf
    have hbm : b ∈ st.nonFull := hmem.resolve_left hfq
    simp only [if_neg hf, if_neg hfq]
    by_cases hdc : (SlabMem.free cfg b s p).isEmpty = true ∧ 1 < st.nonFull.length
    · rw [if_pos hdc]
      refine ⟨_, rfl, ?_, ?_⟩
      · intro hde
        refine ⟨by simp, rfl, ?_⟩
        intro a ha1 ha2 ha3
        simp only [SAState.eraseEntries]
        rw [if_pos ⟨ha1, by omega, ha3⟩]
      · rintro ⟨h1, h2⟩
        exfalso
        rcases hdc with ⟨hd1, hd2⟩
        omega
    · rw [if_neg hdc]
      refine ⟨_, rfl, ?_, ?_⟩
      · rintro ⟨h1, h2⟩
        exfalso
        exact hdc ⟨by simp [SlabMem.free, SlabMem.isEmpty]; omega, h2⟩
      · rintro ⟨h1, h2⟩
        have hsingle : st.nonFull = [b] := by
          cases hnf : st.nonFull with
          | nil => rw [hnf] at hbm; cases hbm
          | cons x xs =>
            rw [hnf] at h2 hbm
            simp only [List.length_cons] at h2
            have hxs : xs = [] := List.length_eq_zero.mp (by omega)
            subst hxs
            rcases List.mem_singleton.mp hbm with rfl
            rfl
        refine ⟨by simp, rfl, rfl, ?_⟩
        unfold SAState.allocate
        rw [hsingle]
        simp only [List.isEmpty_cons, Bool.false_eq_true, if_false]
        unfold SAState.allocateFromFront
        simp only [SlabMem.allocate, SlabMem.free, if_pos rfl, if_true]
        split
        · exact ⟨_, rfl⟩
        · exact ⟨_, rfl⟩

/-- Witness for C5: freeing the sole live element empties the sole slab,
which is retained as the sole non-full slab, and the next `Allocate` reuses
it without any OS mapping. -/
theorem free_empty_slab_destroy_or_retain_witness :
    (c5st.blockMap (SAState.blockOf 4128) = some 4096) ∧
    (c5st.slabs 4096 = some c5slab) ∧
    (c5slab.size = (allocCfg 8 8 1).cap ∨ 4096 ∈ c5st.nonFull) ∧
    (∃ st', SAState.free (allocCfg 8 8 1) 4128 c5st = .ok st' ∧
      ((c5slab.size = 1 ∧ 1 < (if c5slab.size = (allocCfg 8 8 1).cap
          then 4096 :: c5st.nonFull else c5st.nonFull).length) →
        st'.slabs 4096 = none ∧
        st'.nonFull = (if c5slab.size = (allocCfg 8 8 1).cap
          then 4096 :: c5st.nonFull else c5st.nonFull).erase 4096 ∧
        ∀ a, 4096 ≤ a → a < 4096 + sizeofSlab (allocCfg 8 8 1).es (allocCfg 8 8 1).ea
            (allocCfg 8 8 1).cap → (a - 4096) % k4KB = 0 →
          st'.blockMap a = none) ∧
      ((c5slab.size = 1 ∧ (if c5slab.size = (allocCfg 8 8 1).cap
          then 4096 :: c5st.nonFull else c5st.nonFull).length = 1) →
        st'.slabs 4096 = some (c5slab.free (allocCfg 8 8 1) 4096 4128) ∧
        st'.nonFull = (if c5slab.size = (allocCfg 8 8 1).cap
          then 4096 :: c5st.nonFull else c5st.nonFull) ∧
        st'.blockMap = c5st.blockMap ∧
        ∃ st'', SAState.allocate (allocCfg 8 8 1) none st' = .ok (some 4128, st''))) := by
  refine ⟨rfl, rfl, Or.inr (by simp [c5st]), ?_⟩
  exact free_empty_slab_destroy_or_retain (allocCfg 8 8 1) c5st 4128 4096 c5slab
    rfl rfl (Or.inr (by simp [c5st]))

end SlabAlloc

namespace SlabAlloc

/-- Auxiliary: the allocate-from-front-slab phase preserves the invariant. -/
lemma allocateFromFront_inv (cfg : Cfg) (st st' : SAState) (r : Option Nat)
    (hinv : SAInv cfg st)
    (heq : SAState.allocateFromFront cfg st = .ok (r, st')) : SAInv cfg st' := by
  unfold SAState.allocateFromFront at heq
  cases hnf : st.nonFull with
  | nil => rw [hnf] at heq; exact Except.noConfusion heq
  | cons b rest =>
  simp only [hnf] at heq
  cases hsl : st.slabs b with
  | none => rw [hsl] at heq; exact Except.noConfusion heq
  | some s =>
  simp only [hsl] at heq
  have hbmem : b ∈ st.nonFull := by rw [hnf]; exact List.mem_cons_self b rest
  obtain ⟨s0, hs0, hs0lt⟩ := hinv.nonFull_live b hbmem
  have hslt : s.size < cfg.cap := by
    rw [hsl] at hs0
    injection hs0 with h
    rw [h]
    exact hs0lt
  have hbnotfull : b ∉ st.full := hinv.lists_disjoint b hbmem
  have hbnotrest : b ∉ rest := by
    have := hinv.nodup_nonFull
    rw [hnf, List.nodup_cons] at this
    exact this.1
  have hrestnodup : rest.Nodup := by
    have := hinv.nodup_nonFull
    rw [hnf, List.nodup_cons] at this
    exact this.2
  cases hal : s.nextFree with
  | none => simp only [SlabMem.allocate, hal] at heq; exact Except.noConfusion heq
  | some q =>
  simp only [SlabMem.allocate, hal] at heq
  set s2 : SlabMem := { s with nextFree := s.slotLink (slotIndex cfg b q), size := s.size + 1 } with hs2
  by_cases hful : SlabMem.isFull cfg s2 = true
  · rw [if_pos hful] at heq
    injection heq with heq2
    injection heq2 with hr hst
    subst hst
    have hs2cap : s2.size = cfg.cap := by simpa [SlabMem.isFull] using hful
    refine ⟨?_, ?_, ?_, ?_, ?_, ?_⟩
    · intro b2 hb2
      simp only [] at hb2 ⊢
      have hb2mem : b2 ∈ st.nonFull := by rw [hnf]; exact List.mem_cons_of_mem b hb2
      have hb2ne : b2 ≠ b := fun h => hbnotrest (h ▸ hb2)
      obtain ⟨t, ht, htlt⟩ := hinv.nonFull_live b2 hb2mem
      exact ⟨t, by simp only [if_neg hb2ne]; exact ht, htlt⟩
    · intro b2 hb2
      simp only [] at hb2 ⊢
      rcases List.mem_cons.mp hb2 with rfl | hb2f
      · exact ⟨s2, by simp, hs2cap⟩
      · have hb2ne : b2 ≠ b := fun h => hbnotfull (h ▸ hb2f)
        obtain ⟨t, ht, hteq⟩ := hinv.full_live b2 hb2f
        exact ⟨t, by simp only [if_neg hb2ne]; exact ht, hteq⟩
    · intro b2 t ht
      simp only [] at ht ⊢
      by_cases hb2 : b2 = b
      · subst hb2; right; exact List.mem_cons_self _ _
      · rw [if_neg hb2] at ht
        rcases hinv.live_listed b2 t ht with hmem | hmem
        · left
          rw [hnf] at hmem
          rcases List.mem_cons.mp hmem with h | h
          · exact absurd h hb2
          · exact h
        · right; exact List.mem_cons_of_mem _ hmem
    · exact hrestnodup
    · simp only []
      rw [List.nodup_cons]
      exact ⟨hbnotfull, hinv.nodup_full⟩
    · intro b2 hb2
      simp only [] at hb2 ⊢
      have hb2mem : b2 ∈ st.nonFull := by rw [hnf]; exact List.mem_cons_of_mem b hb2
      have hb2ne : b2 ≠ b := fun h => hbnotrest (h ▸ hb2)
      intro hcon
      rcases List.mem_cons.mp hcon with h | h
      · exact hb2ne h
      · exact hinv.lists_disjoint b2 hb2mem h
  · rw [if_neg hful] at heq
    injection heq with heq2
    injection heq2 with hr hst
    subst hst
    have hs2lt : s2.size < cfg.cap := by
      have hne : ¬(s2.size = cfg.cap) := by simpa [SlabMem.isFull] using hful
      have : s2.size = s.size + 1 := rfl
      omega
    refine ⟨?_, ?_, ?_, ?_, ?_, ?_⟩
    · intro b2 hb2
      simp only [] at hb2 ⊢
      rw [← hnf] at hb2
      by_cases hb2e : b2 = b
      · subst hb2e
        exact ⟨s2, by simp, hs2lt⟩
      · obtain ⟨t, ht, htlt⟩ := hinv.nonFull_live b2 hb2
        exact ⟨t, by simp only [if_neg hb2e]; exact ht, htlt⟩
    · intro b2 hb2
      simp only [] at hb2 ⊢
      have hb2ne : b2 ≠ b := fun h => hbnotfull (h ▸ hb2)
      obtain ⟨t, ht, hteq⟩ := hinv.full_live b2 hb2
      exact ⟨t, by simp only [if_neg hb2ne]; exact ht, hteq⟩
    · intro b2 t ht
      simp only [] at ht ⊢
      rw [← hnf]
      by_cases hb2 : b2 = b
      · subst hb2; left; exact hbmem
      · rw [if_neg hb2] at ht
        exact hinv.live_listed b2 t ht
    · simp only []
      rw [← hnf]
      exact hinv.nodup_nonFull
    · exact hinv.nodup_full
    · intro b2 hb2
      simp only [] at hb2 ⊢
      rw [← hnf] at hb2
      exact hinv.lists_disjoint b2 hb2

/-- Auxiliary: a successful `Allocate` (OS oracle mapping only fresh
addresses) preserves the invariant. -/
lemma allocate_inv (cfg : Cfg) (os : Option Nat) (st st' : SAState) (r : Option Nat)
    (hcap : 1 ≤ cfg.cap) (hinv : SAInv cfg st)
    (hfresh : ∀ bn, os = some bn → st.slabs bn = none)
    (heq : SAState.allocate cfg os st = .ok (r, st')) : SAInv cfg st' := by
  unfold SAState.allocate at heq
  cases hnf : st.nonFull with
  | cons b rest =>
    rw [hnf] at heq
    simp only [List.isEmpty_cons, Bool.false_eq_true, if_false] at heq
    exact allocateFromFront_inv cfg st st' r hinv heq
  | nil =>
    rw [hnf] at heq
    simp only [List.isEmpty_nil, eq_self_iff_true, if_true] at heq
    cases os with
    | none =>
      injection heq with h2
      injection h2 with hr hst
      subst hst
      exact hinv
    | some base =>
      have hfr : st.slabs base = none := hfresh base rfl
      simp only [] at heq
      by_cases hal : base % k4KB = 0
      · rw [if_pos hal] at heq
        refine allocateFromFront_inv cfg _ st' r ?_ heq
        refine ⟨?_, ?_, ?_, ?_, ?_, ?_⟩
        · intro b2 hb2
          simp only [] at hb2 ⊢
          rcases List.mem_singleton.mp hb2 with rfl
          exact ⟨SlabMem.init cfg b2, by simp, by simp [SlabMem.init]; omega⟩
        · intro b2 hb2
          simp only [] at hb2 ⊢
          obtain ⟨t, ht, hteq⟩ := hinv.full_live b2 hb2
          have hb2ne : b2 ≠ base := by
            intro h
            rw [h, hfr] at ht
            exact Option.noConfusion ht
          exact ⟨t, by simp only [if_neg hb2ne]; exact ht, hteq⟩
        · intro b2 t ht
          simp only [] at ht ⊢
          by_cases hb2 : b2 = base
          · subst hb2; left; exact List.mem_cons_self _ _
          · rw [if_neg hb2] at ht
            rcases hinv.live_listed b2 t ht with h | h
            · rw [hnf] at h
              cases h
            · right; exact h
        · simp only []
          exact List.nodup_cons.mpr ⟨List.not_mem_nil base, List.nodup_nil⟩
        · exact hinv.nodup_full
        · intro b2 hb2
          simp only [] at hb2 ⊢
          rcases List.mem_singleton.mp hb2 with rfl
          intro hcon
          obtain ⟨t, ht, _⟩ := hinv.full_live b2 hcon
          rw [hfr] at ht
          exact Option.noConfusion ht
      · rw [if_neg hal] at heq
        exact Except.noConfusion heq

/-- Auxiliary: a successful `Free` of a live pointer preserves the
invariant. -/
lemma free_inv (cfg : Cfg) (p : Nat) (st st' : SAState)
    (hinv : SAInv cfg st)
    (hcontract : ∀ b s, st.blockMap (SAState.blockOf p) = some b →
      st.slabs b = some s → 1 ≤ s.size)
    (heq : SAState.free cfg p st = .ok st') : SAInv cfg st' := by
  unfold SAState.free at heq
  cases hbm : st.blockMap (SAState.blockOf p) with
  | none => rw [hbm] at heq; exact Except.noConfusion heq
  | some b =>
  simp only [hbm] at heq
  cases hsl : st.slabs b with
  | none => rw [hsl] at heq; exact Except.noConfusion heq
  | some s =>
  simp only [hsl] at heq
  have hlive : 1 ≤ s.size := hcontract b s hbm hsl
  by_cases hf : SlabMem.isFull cfg s = true
  · have hfq : s.size = cfg.cap := by simpa [SlabMem.isFull] using hf
    have hcap1 : 1 ≤ cfg.cap := by omega
    have hbnotnf : b ∉ st.nonFull := by
      intro h
      obtain ⟨t, ht, hlt⟩ := hinv.nonFull_live b h
      rw [hsl] at ht
      injection ht with ht2
      rw [← ht2] at hlt
      omega
    have hbfull : b ∈ st.full := (hinv.live_listed b s hsl).resolve_left hbnotnf
    simp only [if_pos hf] at heq
    split at heq
    next hdc =>
      injection heq with hst
      subst hst
      refine ⟨?_, ?_, ?_, ?_, ?_, ?_⟩
      · intro b2 hb2
        simp only [List.erase_cons_head] at hb2 ⊢
        have hb2ne : b2 ≠ b := fun h => hbnotnf (h ▸ hb2)
        obtain ⟨t, ht, hlt⟩ := hinv.nonFull_live b2 hb2
        exact ⟨t, by simp only [if_neg hb2ne]; exact ht, hlt⟩
      · intro b2 hb2
        simp only [] at hb2 ⊢
        obtain ⟨hb2ne, hb2f⟩ := (hinv.nodup_full.mem_erase_iff).mp hb2
        obtain ⟨t, ht, hteq⟩ := hinv.full_live b2 hb2f
        exact ⟨t, by simp only [if_neg hb2ne]; exact ht, hteq⟩
      · intro b2 t ht
        simp only [] at ht ⊢
        by_cases hb2 : b2 = b
        · rw [if_pos hb2] at ht
          exact Option.noConfusion ht
        · rw [if_neg hb2] at ht
          rw [if_neg hb2] at ht
          rcases hinv.live_listed b2 t ht with h | h
          · left; simpa [List.erase_cons_head] using h
          · right; exact (List.mem_erase_of_ne hb2).mpr h
      · simp only [List.erase_cons_head]
        exact hinv.nodup_nonFull
      · exact hinv.nodup_full.erase b
      · intro b2 hb2
        simp only [List.erase_cons_head] at hb2 ⊢
        intro hcon
        exact hinv.lists_disjoint b2 hb2 (List.mem_of_mem_erase hcon)
    next hdc =>
      injection heq with hst
      subst hst
      refine ⟨?_, ?_, ?_, ?_, ?_, ?_⟩
      · intro b2 hb2
        simp only [] at hb2 ⊢
        rcases List.mem_cons.mp hb2 with rfl | hb2m
        · refine ⟨SlabMem.free cfg b2 s p, by simp, ?_⟩
          simp only [SlabMem.free]
          omega
        · have hb2ne : b2 ≠ b := fun h => hbnotnf (h ▸ hb2m)
          obtain ⟨t, ht, hlt⟩ := hinv.nonFull_live b2 hb2m
          exact ⟨t, by simp only [if_neg hb2ne]; exact ht, hlt⟩
      · intro b2 hb2
        simp only [] at hb2 ⊢
        obtain ⟨hb2ne, hb2f⟩ := (hinv.nodup_full.mem_erase_iff).mp hb2
        obtain ⟨t, ht, hteq⟩ := hinv.full_live b2 hb2f
        exact ⟨t, by simp only [if_neg hb2ne]; exact ht, hteq⟩
      · intro b2 t ht
        simp only [] at ht ⊢
        by_cases hb2 : b2 = b
        · subst hb2; left; exact List.mem_cons_self _ _
        · rw [if_neg hb2] at ht
          rcases hinv.live_listed b2 t ht with h | h
          · left; exact List.mem_cons_of_mem _ h
          · right; exact (List.mem_erase_of_ne hb2).mpr h
      · simp only []
        exact List.nodup_cons.mpr ⟨hbnotnf, hinv.nodup_nonFull⟩
      · exact hinv.nodup_full.erase b
      · intro b2 hb2
        simp only [] at hb2 ⊢
        rcases List.mem_cons.mp hb2 with rfl | hb2m
        · exact hinv.nodup_full.not_mem_erase
        · intro hcon
          exact hinv.lists_disjoint b2 hb2m (List.mem_of_mem_erase hcon)
  · have hfq : ¬(s.size = cfg.cap) := by simpa [SlabMem.isFull] using hf
    have hbmem : b ∈ st.nonFull := by
      rcases hinv.live_listed b s hsl with h | h
      · exact h
      · obtain ⟨t, ht, hteq⟩ := hinv.full_live b h
        rw [hsl] at ht
        injection ht with ht2
        rw [← ht2] at hteq
        exact absurd hteq hfq
    have hslt : s.size < cfg.cap := by
      obtain ⟨t, ht, hlt⟩ := hinv.nonFull_live b hbmem
      rw [hsl] at ht
      injection ht with ht2
      rw [← ht2] at hlt
      exact hlt
    have hbnotfull : b ∉ st.full := hinv.lists_disjoint b hbmem
    simp only [if_neg hf] at heq
    split at heq
    next hdc =>
      injection heq with hst
      subst hst
      refine ⟨?_, ?_, ?_, ?_, ?_, ?_⟩
      · intro b2 hb2
        simp only [] at hb2 ⊢
        obtain ⟨hb2ne, hb2m⟩ := (hinv.nodup_nonFull.mem_erase_iff).mp hb2
        obtain ⟨t, ht, hlt⟩ := hinv.nonFull_live b2 hb2m
        exact ⟨t, by simp only [if_neg hb2ne]; exact ht, hlt⟩
      · intro b2 hb2
        simp only [] at hb2 ⊢
        have hb2ne : b2 ≠ b := fun h => hbnotfull (h ▸ hb2)
        obtain ⟨t, ht, hteq⟩ := hinv.full_live b2 hb2
        exact ⟨t, by simp only [if_neg hb2ne]; exact ht, hteq⟩
      · intro b2 t ht
        simp only [] at ht ⊢
        by_cases hb2 : b2 = b
        · rw [if_pos hb2] at ht
          exact Option.noConfusion ht
        · rw [if_neg hb2] at ht
          rw [if_neg hb2] at ht
          rcases hinv.live_listed b2 t ht with h | h
          · left; exact (List.mem_erase_of_ne hb2).mpr h
          · right; exact h
      · exact hinv.nodup_nonFull.erase b
      · exact hinv.nodup_full
      · intro b2 hb2
        simp only [] at hb2 ⊢
        exact hinv.lists_disjoint b2 (List.mem_of_mem_erase hb2)
    next hdc =>
      injection heq with hst
      subst hst
      refine ⟨?_, ?_, ?_, ?_, ?_, ?_⟩
      · intro b2 hb2
        simp only [] at hb2 ⊢
        by_cases hb2e : b2 = b
        · subst hb2e
          refine ⟨SlabMem.free cfg b2 s p, by simp, ?_⟩
          simp only [SlabMem.free]
          omega
        · obtain ⟨t, ht, hlt⟩ := hinv.nonFull_live b2 hb2
          exact ⟨t, by simp only [if_neg hb2e]; exact ht, hlt⟩
      · intro b2 hb2
        simp only [] at hb2 ⊢
        have hb2ne : b2 ≠ b := fun h => hbnotfull (h ▸ hb2)
        obtain ⟨t, ht, hteq⟩ := hinv.full_live b2 hb2
        exact ⟨t, by simp only [if_neg hb2ne]; exact ht, hteq⟩
      · intro b2 t ht
        simp only [] at ht ⊢
        by_cases hb2 : b2 = b
        · subst hb2; left; exact hbmem
        · rw [if_neg hb2] at ht
          exact hinv.live_listed b2 t ht
      · exact hinv.nodup_nonFull
      · exact hinv.nodup_full
      · exact hinv.lists_disjoint

/-- Auxiliary: a fresh allocator satisfies the invariant. -/
lemma init_inv (cfg : Cfg) : SAInv cfg SAState.init := by
  refine ⟨?_, ?_, ?_, ?_, ?_, ?_⟩
  · intro b hb
    cases hb
  · intro b hb
    cases hb
  · intro b s h
    exact Option.noConfusion h
  · exact List.nodup_nil
  · exact List.nodup_nil
  · intro b hb
    cases hb

/-- Auxiliary: the invariant holds in every reachable state. -/
lemma reachable_inv (cfg : Cfg) (st : SAState) (hcap : 1 ≤ cfg.cap)
    (hreach : Reachable cfg st) : SAInv cfg st := by
  induction hreach with
  | refl => exact init_inv cfg
  | tail hsteps hstep ih =>
    cases hstep with
    | alloc os r _ _ hfresh heq => exact allocate_inv cfg os _ _ r hcap ih hfresh heq
    | free p _ _ hcontract heq => exact free_inv cfg p _ _ ih hcontract heq

/-- C7. In every state reachable by contract-respecting `Allocate`/`Free`
calls (capacity at least 1), each live slab is a member of exactly one of
the two intrusive lists, and membership matches its live count: non-full
list iff `live_count < Capacity`, full list iff `live_count = Capacity`. -/
theorem reachable_list_membership_matches_live_count (cfg : Cfg) (st : SAState)
    (hcap : 1 ≤ cfg.cap) (hreach : Reachable cfg st) :
    ∀ b s, st.slabs b = some s →
      ((b ∈ st.nonFull ∧ b ∉ st.full ∧ s.size < cfg.cap) ∨
       (b ∈ st.full ∧ b ∉ st.nonFull ∧ s.size = cfg.cap)) := by
  intro b s hb
  have hinv := reachable_inv cfg st hcap hreach
  rcases hinv.live_listed b s hb with h | h
  · obtain ⟨t, ht, hlt⟩ := hinv.nonFull_live b h
    rw [hb] at ht
    injection ht with ht2
    left
    exact ⟨h, hinv.lists_disjoint b h, by rw [ht2]; exact hlt⟩
  · obtain ⟨t, ht, hteq⟩ := hinv.full_live b h
    rw [hb] at ht
    injection ht with ht2
    right
    refine ⟨h, ?_, by rw [ht2]; exact hteq⟩
    intro hcon
    exact hinv.lists_disjoint b hcon h

/-- Witness for C7: after one allocation on the `8/8/1` configuration the
sole slab at 4096 is in the non-full list, not in the full list, with live
count 1 < 508. -/
theorem reachable_list_membership_witness :
    1 ≤ (allocCfg 8 8 1).cap ∧ Reachable (allocCfg 8 8 1) c7st ∧
      c7st.slabs 4096 = some c7slab ∧
      ((4096 ∈ c7st.nonFull ∧ 4096 ∉ c7st.full ∧ c7slab.size < (allocCfg 8 8 1).cap) ∨
       (4096 ∈ c7st.full ∧ 4096 ∉ c7st.nonFull ∧ c7slab.size = (allocCfg 8 8 1).cap)) := by
  have hstep : Step (allocCfg 8 8 1) SAState.init c7st :=
    Step.alloc (some 4096) (some 4128) SAState.init c7st
      (fun bn _ => rfl) (by rfl)
  have hreach : Reachable (allocCfg 8 8 1) c7st := Relation.ReflTransGen.single hstep
  exact ⟨by decide, hreach, rfl,
    reachable_list_membership_matches_live_count (allocCfg 8 8 1) c7st (by decide) hreach
      4096 c7slab rfl⟩

end SlabAlloc
